import Mathlib

/-!
A verification development for the scoped-settings subsystem of ccstatusline
(`src/utils/scoped-config.ts`, `src/utils/migrations.ts`): the JSON value
model, the deep-merge algorithm, the migration engine, and a file-system
model for load/resolve/save and the `.gitignore` guard.
-/

namespace CCStat

/--
JavaScript runtime values as the merge/migration code observes them:
`undef` is JavaScript `undefined` (never produced by `JSON.parse`, but a
possible field value of a partial settings object and the result of a
missing lookup); `obj` is a plain object as an insertion-ordered list of
key/value fields (JavaScript object keys are unique; lists with duplicate
keys do not arise from real objects).
-/
inductive JValue where
  | undef : JValue
  | null : JValue
  | bool (b : Bool) : JValue
  | num (n : Int) : JValue
  | str (s : String) : JValue
  | arr (elems : List JValue) : JValue
  | obj (fields : List (String × JValue)) : JValue

abbrev Entries := List (String × JValue)

/-- Property lookup on an object: the value at the (unique) matching key. -/
def getKey {α : Type} : List (String × α) → String → Option α
  | [], _ => none
  | (k, v) :: rest, key => if k = key then some v else getKey rest key

/-- Property assignment `o[key] = v`: overwrites in place when the key is
present (JavaScript keeps the original insertion position), appends
otherwise. -/
def setKey {α : Type} : List (String × α) → String → α → List (String × α)
  | [], key, v => [(key, v)]
  | (k, w) :: rest, key, v =>
    if k = key then (k, v) :: rest else (k, w) :: setKey rest key v

/-- JavaScript truthiness (`!value` negated): `undefined`, `null`, `false`,
`0` and `""` are falsy; every object and array is truthy. -/
def truthy : JValue → Bool
  | .undef => false
  | .null => false
  | .bool b => b
  | .num n => n != 0
  | .str s => s != ""
  | .arr _ => true
  | .obj _ => true

/-- `isRecord` from migrations.ts: `typeof value === 'object' && value !== null
&& !Array.isArray(value)`. -/
def isRecord : JValue → Bool
  | .obj _ => true
  | _ => false

def isUndef : JValue → Bool
  | .undef => true
  | _ => false

/-- Decimal digit characters of a natural number, most significant first
(the spelling JavaScript uses for array index keys). -/
def decimalDigits (n : Nat) : List Char :=
  if _h : n < 10 then [Nat.digitChar n]
  else decimalDigits (n / 10) ++ [Nat.digitChar (n % 10)]
termination_by n
decreasing_by
  exact Nat.div_lt_self (by omega) (by omega)

/-- The JavaScript property key for array index `n` (its decimal string). -/
def indexKey (n : Nat) : String := ⟨decimalDigits n⟩

/--
`Object.entries(value)` as used by `deepMerge`'s source loop: a plain
object yields its own fields in insertion order, an array yields its
elements under decimal index keys, a string yields its characters as
one-character strings under decimal index keys, and primitives yield
nothing.
-/
def entriesOf : JValue → Entries
  | .obj fields => fields
  | .arr elems => elems.enum.map (fun p => (indexKey p.1, p.2))
  | .str s => s.data.enum.map (fun p => (indexKey p.1, .str ⟨[p.2]⟩))
  | _ => []

/-- Top-level entries whose value is not `undefined`; replaying an object
into an empty accumulator (the head of a nested `deepMerge` call) keeps
exactly these entries, in order. -/
def filterUndef (fields : Entries) : Entries :=
  fields.filter (fun kv => !isUndef kv.2)

/--
The body of `deepMerge`'s per-source loop: fold the entries of one source
into the accumulator `result`. `undefined` values are skipped; arrays are
shallow-copied into place; when the incoming value and the accumulator's
current value are both plain objects the code recurses with
`deepMerge(result[key], value)`, which first replays `result[key]` into an
empty accumulator — for the duplicate-key-free objects JavaScript produces
that replay equals `filterUndef` (proved in `mergeSource_nil_eq_filterUndef`
below), which is the form used here so that the recursion is structural on
the entries being consumed; any other value overwrites outright.
-/
def mergeSource (result : Entries) (entries : Entries) : Entries :=
  match entries with
  | [] => result
  | (key, value) :: rest =>
    match value with
    | .undef => mergeSource result rest
    | .arr xs => mergeSource (setKey result key (.arr xs)) rest
    | .obj fs =>
      match getKey result key with
      | some (.obj gs) =>
        mergeSource (setKey result key (.obj (mergeSource (filterUndef gs) fs))) rest
      | _ => mergeSource (setKey result key (.obj fs)) rest
    | v => mergeSource (setKey result key v) rest
termination_by sizeOf entries
decreasing_by
  all_goals simp_wf
  all_goals omega

/--
`deepMerge(...sources)` from scoped-config.ts: starting from an empty
result, each source in order is skipped when falsy (`undefined`, but also
any other falsy value reaching the variadic call) and otherwise has its
`Object.entries` merged into the result by `mergeSource`.
-/
def deepMerge (sources : List JValue) : Entries :=
  sources.foldl
    (fun result source =>
      if truthy source then mergeSource result (entriesOf source) else result)
    []

/-! ## Migration engine (`src/utils/migrations.ts`) -/

/-- Modelled from the spec: `generateGuid` (utils/guid.ts) is not among the
sources; the spec only requires "assigning stable per-item identifiers
where absent", and no property verified here depends on the identifier's
value, so it is modelled as a fixed string. -/
def generateGuid : String := "00000000-0000-4000-8000-000000000000"

def updateMessageV2 : JValue :=
  .obj [("message", .str "ccstatusline updated to v2.0.0, launch tui to use new settings"),
        ("remaining", .num 12)]

def updateMessageV3 : JValue :=
  .obj [("message", .str "ccstatusline updated to v2.0.2, 5hr block timer widget added"),
        ("remaining", .num 12)]

/-- The v1→v2 separator filter predicate: a record item is dropped exactly
when its `type` is the string `'separator'`; non-records are kept. -/
def isSeparatorItem (item : JValue) : Bool :=
  match item with
  | .obj fs =>
    match getKey fs "type" with
    | some (.str t) => t == "separator"
    | _ => false
  | _ => false

/-- The v1→v2 per-item step: records with a string `type` are rebuilt as
`{...item, id: generateGuid(), type: item.type}`; other items are dropped. -/
def migrateItem (item : JValue) : Option JValue :=
  match item with
  | .obj fs =>
    match getKey fs "type" with
    | some (.str t) =>
      some (.obj (setKey (setKey fs "id" (.str generateGuid)) "type" (.str t)))
    | _ => none
  | _ => none

def migrateLine (filterSeparators : Bool) (line : List JValue) : List JValue :=
  let processedLine :=
    if filterSeparators then line.filter (fun item => !isSeparatorItem item) else line
  processedLine.filterMap migrateItem

/-- The v1→v2 lines loop: non-array lines are skipped (not pushed). -/
def migrateLines (filterSeparators : Bool) (lines : List JValue) : List JValue :=
  lines.filterMap (fun l =>
    match l with
    | .arr items => some (.arr (migrateLine filterSeparators items))
    | _ => none)

/-- `if (typeof data.key === '...') migrated.key = data.key`. -/
def copyFieldIf (migrated : Entries) (data : Entries) (key : String)
    (pred : JValue → Bool) : Entries :=
  match getKey data key with
  | some v => if pred v then setKey migrated key v else migrated
  | none => migrated

def isStrV : JValue → Bool
  | .str _ => true
  | _ => false

def isNumV : JValue → Bool
  | .num _ => true
  | _ => false

def isBoolV : JValue → Bool
  | .bool _ => true
  | _ => false

def isArrV : JValue → Bool
  | .arr _ => true
  | _ => false

def truthyOpt (o : Option JValue) : Bool :=
  match o with
  | some v => truthy v
  | none => false

/-- The v1→v2 transform: builds a new v2 config copying only known fields
(the code's own comment), processes `lines` when present (`data.lines &&
Array.isArray(data.lines)` holds exactly when the value is an array, arrays
being truthy), then stamps `version: 2` and the one-time update message. -/
def migrateV1toV2 (data : Entries) : Entries :=
  let migrated : Entries := []
  let migrated :=
    match getKey data "lines" with
    | some (.arr lines) =>
      setKey migrated "lines"
        (.arr (migrateLines (truthyOpt (getKey data "defaultSeparator")) lines))
    | _ => migrated
  let migrated := copyFieldIf migrated data "flexMode" isStrV
  let migrated := copyFieldIf migrated data "compactThreshold" isNumV
  let migrated := copyFieldIf migrated data "colorLevel" isNumV
  let migrated := copyFieldIf migrated data "defaultSeparator" isStrV
  let migrated := copyFieldIf migrated data "defaultPadding" isStrV
  let migrated := copyFieldIf migrated data "inheritSeparatorColors" isBoolV
  let migrated := copyFieldIf migrated data "overrideBackgroundColor" isStrV
  let migrated := copyFieldIf migrated data "overrideForegroundColor" isStrV
  let migrated := copyFieldIf migrated data "globalBold" isBoolV
  setKey (setKey migrated "version" (.num 2)) "updatemessage" updateMessageV2

/-- The v2→v3 transform: `{...data}`, `version = 3`, new update message. -/
def migrateV2toV3 (data : Entries) : Entries :=
  setKey (setKey data "version" (.num 3)) "updatemessage" updateMessageV3

/-- The v3→v4 transform: `{...data}`, `version = 4`, and
`customModules ??= []` (assigned only when nullish). -/
def migrateV3toV4 (data : Entries) : Entries :=
  let migrated := setKey data "version" (.num 4)
  match getKey migrated "customModules" with
  | none => setKey migrated "customModules" (.arr [])
  | some .undef => setKey migrated "customModules" (.arr [])
  | some .null => setKey migrated "customModules" (.arr [])
  | some _ => migrated

structure Migration where
  fromVersion : Int
  toVersion : Int
  description : String
  migrate : Entries → Entries

def migrations : List Migration :=
  [⟨1, 2, "Migrate from v1 to v2", migrateV1toV2⟩,
   ⟨2, 3, "Migrate from v2 to v3", migrateV2toV3⟩,
   ⟨3, 4, "Add custom modules support", migrateV3toV4⟩]

/-- `detectVersion`: non-records and documents without a numeric `version`
field are version 1; otherwise the literal `version` value. -/
def detectVersion (data : JValue) : Int :=
  match data with
  | .obj fs =>
    match getKey fs "version" with
    | some (.num n) => n
    | _ => 1
  | _ => 1

def needsMigration (data : JValue) (targetVersion : Int) : Bool :=
  detectVersion data < targetVersion

/-- `migrations.find(m => m.fromVersion === currentVersion)`. -/
def findMigration (currentVersion : Int) : Option Migration :=
  migrations.find? (fun m => m.fromVersion == currentVersion)

theorem findMigration_spec {v : Int} {m : Migration} (h : findMigration v = some m) :
    m.fromVersion = v ∧ m.toVersion = v + 1 := by
  have hmem := List.mem_of_find?_eq_some h
  have hp := List.find?_some h
  have hfv : m.fromVersion = v := by simpa using hp
  have hto : m.toVersion = m.fromVersion + 1 := by
    fin_cases hmem <;> rfl
  exact ⟨hfv, by rw [hto, hfv]⟩

/-- The `while (currentVersion < targetVersion)` loop of `migrateConfig`. -/
def runMigrations (currentVersion targetVersion : Int) (doc : Entries) : Entries :=
  if _h : currentVersion < targetVersion then
    match hm : findMigration currentVersion with
    | none => doc
    | some m => runMigrations m.toVersion targetVersion (m.migrate doc)
  else doc
termination_by (targetVersion - currentVersion).toNat
decreasing_by
  have := findMigration_spec hm
  omega

/-- `migrateConfig`: non-records are returned unchanged; records start at
their detected version, `{...data}` is the working copy, and the loop
applies matching migrations until the target is reached or the chain is
exhausted. -/
def migrateConfig (data : JValue) (targetVersion : Int) : JValue :=
  match data with
  | .obj fs => .obj (runMigrations (detectVersion (.obj fs)) targetVersion fs)
  | _ => data

/-- Modelled from the spec: `CURRENT_VERSION` is declared in
`src/types/Settings.ts`, which is not among the sources; the spec requires
the migration chain from version 1 to reach `CURRENT_VERSION`, and the
chain ends at 4. -/
def CURRENT_VERSION : Int := 4

/-! ## Canonical settings schema (modelled) -/

/-- One Zod object field: taken from the input when present (the whole
parse fails when its shape predicate rejects the value), defaulted when
absent. -/
def checkField (input : Entries) (name : String) (pred : JValue → Bool)
    (dflt : JValue) : Option (String × JValue) :=
  match getKey input name with
  | none => some (name, dflt)
  | some v => if pred v then some (name, v) else none

/-- Modelled from the spec: the nested `powerline` object of the canonical
schema (`SettingsSchema` in `src/types/Settings.ts` is not among the
sources); the repository's settings guide shows it with `enabled` and
`theme` subfields with defaults. -/
def parsePowerline (v : JValue) : Option JValue :=
  match v with
  | .obj fs => do
    let e ← checkField fs "enabled" isBoolV (.bool false)
    let t ← checkField fs "theme" isStrV (.str "default")
    some (.obj [e, t])
  | _ => none

/-- Modelled from the spec: `SettingsSchema.parse` (`src/types/Settings.ts`
is not among the sources). Following the spec's data model it validates a
top-level object with an integer `version`, array `lines`, scalar display
options, a `customModules` collection introduced by the v3→v4 migration,
and one nested plain-object field (`powerline`, as shown in the settings
guide). Zod semantics: non-objects are rejected, declared fields are
defaulted when absent and rejected when present with the wrong shape, and
unknown keys are stripped. -/
def schemaParse (v : JValue) : Option JValue :=
  match v with
  | .obj fs => do
    let ver ← checkField fs "version" isNumV (.num CURRENT_VERSION)
    let lines ← checkField fs "lines" isArrV (.arr [])
    let cl ← checkField fs "colorLevel" isNumV (.num 3)
    let fm ← checkField fs "flexMode" isStrV (.str "full-minus-40")
    let cm ← checkField fs "customModules" isArrV (.arr [])
    let pl ←
      match getKey fs "powerline" with
      | none => some (("powerline",
          .obj [("enabled", .bool false), ("theme", .str "default")]) : String × JValue)
      | some w => do
        let p ← parsePowerline w
        some (("powerline", p) : String × JValue)
    some (.obj [ver, lines, cl, fm, cm, pl])
  | _ => none

/-- `SettingsSchema.parse({})`, the defaults used as the merge base. -/
def schemaDefaults : Entries :=
  match schemaParse (.obj []) with
  | some (.obj d) => d
  | _ => []

/-! ## File-system model and the settings service (`scoped-config.ts`) -/

/-- On-disk content of one file, at the granularity the loader observes:
a file whose text parses as a JSON value, a file whose text fails
`JSON.parse`, a plain text file (the `.gitignore`), or a file that exists
but whose read throws (e.g. a permission error). -/
inductive FileContent where
  | json (v : JValue)
  | malformed
  | text (s : String)
  | denied

/-- The file system as a map from absolute path to content. -/
abbrev FS := List (String × FileContent)

def readFS (fs : FS) (path : String) : Option FileContent := getKey fs path

def writeFS (fs : FS) (path : String) (c : FileContent) : FS := setKey fs path c

inductive SettingsScope where
  | user
  | project
  | «local»

/-- Path resolution (`getUserSettingsDir`, `getProjectRoot`,
`getSettingsPathForScope`) depends on the environment — `CLAUDE_CONFIG_DIR`,
the working directory and an upward `.claude`-directory search bounded by
the git root; within one resolution environment it yields three fixed,
distinct paths, modelled here as constants. -/
def userSettingsPath : String := "/home/user/.claude/statusline/settings.json"

def projectSettingsPath : String := "/repo/.claude/statusline/settings.json"

def localSettingsPath : String := "/repo/.claude/statusline/settings.local.json"

/-- `<project-root>/.gitignore` used by `ensureLocalSettingsGitignored`. -/
def gitignorePath : String := "/repo/.gitignore"

def getSettingsPathForScope : SettingsScope → String
  | .user => userSettingsPath
  | .project => projectSettingsPath
  | .«local» => localSettingsPath

/-- `typeof rawData === 'object' && rawData !== null && 'version' in rawData`
(`'version' in x` is false for arrays and primitives). -/
def hasVersionField (v : JValue) : Bool :=
  match v with
  | .obj fs => (getKey fs "version").isSome
  | _ => false

/-- The body of `loadSingleScopeSettings` up to its outer `catch`: a missing
file yields `undefined`; a read failure throws (`.error`); a `JSON.parse`
failure is caught inside and yields `undefined`; a parsed document without
a `version` key or below `CURRENT_VERSION` is migrated and written back. -/
def loadSingleBody (fs : FS) (path : String) : Except Unit (JValue × FS) :=
  match readFS fs path with
  | none => .ok (.undef, fs)
  | some .denied => .error ()
  | some .malformed => .ok (.undef, fs)
  | some (.text _) => .ok (.undef, fs)
  | some (.json rawData) =>
    if !hasVersionField rawData || needsMigration rawData CURRENT_VERSION then
      let migrated := migrateConfig rawData CURRENT_VERSION
      .ok (migrated, writeFS fs path (.json migrated))
    else
      .ok (rawData, fs)

/-- `loadSingleScopeSettings`: the outer `catch` logs and degrades every
thrown error to "scope absent" (`undefined`), leaving the file system as it
was. -/
def loadSingleScopeSettings (fs : FS) (path : String) : JValue × FS :=
  match loadSingleBody fs path with
  | .ok r => r
  | .error _ => (.undef, fs)

/-- The three sequential scope loads of `resolveSettings`. -/
def loadAllScopes (fs : FS) : (JValue × JValue × JValue) × FS :=
  let (u, fs1) := loadSingleScopeSettings fs userSettingsPath
  let (p, fs2) := loadSingleScopeSettings fs1 projectSettingsPath
  let (l, fs3) := loadSingleScopeSettings fs2 localSettingsPath
  ((u, p, l), fs3)

/-- The merge `resolveSettings` validates: defaults, then user, project and
local documents in precedence order. -/
def resolveMerged (u p l : JValue) : Entries :=
  deepMerge [.obj schemaDefaults, u, p, l]

structure SettingsSources where
  user : Option String
  project : Option String
  «local» : Option String

/-- `resolveSettings`: loads each scope (tolerantly), merges with the schema
defaults as base, validates the merge — a validation failure propagates as
an error — and records as a scope's source its path when the loaded value
is truthy. -/
def resolveSettings (fs : FS) : Except Unit (JValue × SettingsSources) × FS :=
  let ((u, p, l), fs3) := loadAllScopes fs
  let merged := resolveMerged u p l
  match schemaParse (.obj merged) with
  | some validated =>
    (.ok (validated,
      { user := if truthy u then some userSettingsPath else none
        project := if truthy p then some projectSettingsPath else none
        «local» := if truthy l then some localSettingsPath else none }), fs3)
  | none => (.error (), fs3)

def localPattern : String := ".claude/statusline/settings.local.json"

/-- The text `ensureLocalSettingsGitignored` appends: a header comment and
the local-settings pattern. -/
def gitignoreAppendBlock : String :=
  "\n# ccstatusline local settings\n" ++ localPattern ++ "\n"

/-- `content.includes(pattern)`. -/
def includesSubstr (s pat : String) : Bool := decide (pat.data <:+: s.data)

/-- `ensureLocalSettingsGitignored`: does nothing when `.gitignore` does not
exist; appends the pattern block only when the pattern is not already
present; a read/append failure is caught and logged (best effort). A JSON
document never sits at the `.gitignore` path, so non-text contents are
grouped with the caught-failure branch. -/
def ensureLocalSettingsGitignored (fs : FS) : FS :=
  match readFS fs gitignorePath with
  | some (.text content) =>
    if includesSubstr content localPattern then fs
    else writeFS fs gitignorePath (.text (content ++ gitignoreAppendBlock))
  | some _ => fs
  | none => fs

/-- `saveScopedSettings`: stamps `{...settings, version: CURRENT_VERSION}`,
writes it to the scope's path, and for the local scope ensures the
`.gitignore` entry afterwards. (Directory creation is not modelled.) -/
def saveScopedSettings (settings : Entries) (scope : SettingsScope) (fs : FS) : FS :=
  let path := getSettingsPathForScope scope
  let withVersion := setKey settings "version" (.num CURRENT_VERSION)
  let fs1 := writeFS fs path (.json (.obj withVersion))
  match scope with
  | .«local» => ensureLocalSettingsGitignored fs1
  | _ => fs1

/-! ## Well-formed values

JavaScript objects have unique keys, and JSON documents contain no
`undefined`; `wfValue` captures both, hereditarily. -/

mutual

def wfValue : JValue → Bool
  | .undef => false
  | .null => true
  | .bool _ => true
  | .num _ => true
  | .str _ => true
  | .arr xs => wfList xs
  | .obj fs => decide ((fs.map Prod.fst).Nodup) && wfFields fs

def wfList : List JValue → Bool
  | [] => true
  | x :: xs => wfValue x && wfList xs

def wfFields : Entries → Bool
  | [] => true
  | (_, v) :: rest => wfValue v && wfFields rest

end

/-! ## Lookup and assignment lemmas -/

theorem getKey_setKey_self {α : Type} (l : List (String × α)) (k : String) (v : α) :
    getKey (setKey l k v) k = some v := by
  induction l with
  | nil => simp [setKey, getKey]
  | cons hd tl ih =>
    obtain ⟨k', v'⟩ := hd
    by_cases h : k' = k <;> simp [setKey, getKey, h, ih]

theorem getKey_setKey_ne {α : Type} {l : List (String × α)} {k k' : String} (v : α)
    (h : k ≠ k') : getKey (setKey l k v) k' = getKey l k' := by
  induction l with
  | nil => simp [setKey, getKey, h]
  | cons hd tl ih =>
    obtain ⟨k'', v''⟩ := hd
    by_cases h2 : k'' = k
    · subst h2
      simp [setKey, getKey, h]
    · simp [setKey, getKey, h2, ih]

theorem getKey_append {α : Type} (l₁ l₂ : List (String × α)) (k : String) :
    getKey (l₁ ++ l₂) k =
      match getKey l₁ k with
      | some v => some v
      | none => getKey l₂ k := by
  induction l₁ with
  | nil => simp [getKey]
  | cons hd tl ih =>
    obtain ⟨k', v'⟩ := hd
    by_cases h : k' = k <;> simp [getKey, h, ih]

theorem setKey_eq_append_of_absent {α : Type} {l : List (String × α)} {k : String}
    (v : α) (h : getKey l k = none) : setKey l k v = l ++ [(k, v)] := by
  induction l with
  | nil => simp [setKey]
  | cons hd tl ih =>
    obtain ⟨k', v'⟩ := hd
    by_cases h2 : k' = k
    · simp [getKey, h2] at h
    · simp [getKey, h2] at h
      simp [setKey, h2, ih h]

theorem getKey_mem {α : Type} {l : List (String × α)} {k : String} {v : α}
    (h : getKey l k = some v) : (k, v) ∈ l := by
  induction l with
  | nil => simp [getKey] at h
  | cons hd tl ih =>
    obtain ⟨k', v'⟩ := hd
    by_cases h2 : k' = k
    · subst h2
      simp [getKey] at h
      simp [h]
    · simp [getKey, h2] at h
      exact List.mem_cons_of_mem _ (ih h)

/-- A source loop never touches a key outside its entries. -/
theorem getKey_mergeSource_of_not_mem (acc : Entries) (entries : Entries) (k : String)
    (h : ∀ p ∈ entries, p.1 ≠ k) :
    getKey (mergeSource acc entries) k = getKey acc k := by
  induction entries generalizing acc with
  | nil => simp [mergeSource]
  | cons hd rest ih =>
    obtain ⟨k', v⟩ := hd
    have hk' : k' ≠ k := h (k', v) (by simp)
    have hrest : ∀ p ∈ rest, p.1 ≠ k := fun p hp => h p (List.mem_cons_of_mem _ hp)
    cases v with
    | undef => simpa [mergeSource] using ih acc hrest
    | arr xs =>
      simp only [mergeSource]
      rw [ih _ hrest, getKey_setKey_ne _ hk']
    | obj fs =>
      simp only [mergeSource]
      cases hacc : getKey acc k' with
      | none =>
        rw [ih _ hrest, getKey_setKey_ne _ hk']
      | some w =>
        cases w <;>
          · rw [ih _ hrest, getKey_setKey_ne _ hk']
    | null =>
      simp only [mergeSource]
      rw [ih _ hrest, getKey_setKey_ne _ hk']
    | bool b =>
      simp only [mergeSource]
      rw [ih _ hrest, getKey_setKey_ne _ hk']
    | num n =>
      simp only [mergeSource]
      rw [ih _ hrest, getKey_setKey_ne _ hk']
    | str s =>
      simp only [mergeSource]
      rw [ih _ hrest, getKey_setKey_ne _ hk']

/-- Replaying a source into an accumulator none of whose keys it shares
appends exactly its non-`undefined` entries, in order. -/
theorem mergeSource_eq_append_of_disjoint (acc : Entries) (entries : Entries)
    (hnd : (entries.map Prod.fst).Nodup)
    (hdisj : ∀ p ∈ entries, getKey acc p.1 = none) :
    mergeSource acc entries = acc ++ filterUndef entries := by
  induction entries generalizing acc with
  | nil => simp [mergeSource, filterUndef]
  | cons hd rest ih =>
    obtain ⟨k, v⟩ := hd
    simp only [List.map_cons, List.nodup_cons] at hnd
    obtain ⟨hknotin, hndrest⟩ := hnd
    have hacck : getKey acc k = none := hdisj (k, v) (by simp)
    have hdisj' : ∀ p ∈ rest, getKey (acc ++ [(k, v)]) p.1 = none := by
      intro p hp
      rw [getKey_append, hdisj p (List.mem_cons_of_mem _ hp)]
      have hne : k ≠ p.1 := by
        intro hkp
        exact hknotin (hkp ▸ List.mem_map_of_mem Prod.fst hp)
      simp [getKey, fun h => hne h]
    cases v with
    | undef =>
      have hdisj'' : ∀ p ∈ rest, getKey acc p.1 = none :=
        fun p hp => hdisj p (List.mem_cons_of_mem _ hp)
      simp only [mergeSource]
      rw [ih acc hndrest hdisj'']
      simp [filterUndef, isUndef]
    | arr xs =>
      simp only [mergeSource]
      rw [setKey_eq_append_of_absent _ hacck, ih _ hndrest hdisj']
      simp [filterUndef, isUndef]
    | obj fs =>
      simp only [mergeSource, hacck]
      rw [setKey_eq_append_of_absent _ hacck, ih _ hndrest hdisj']
      simp [filterUndef, isUndef]
    | null =>
      simp only [mergeSource]
      rw [setKey_eq_append_of_absent _ hacck, ih _ hndrest hdisj']
      simp [filterUndef, isUndef]
    | bool b =>
      simp only [mergeSource]
      rw [setKey_eq_append_of_absent _ hacck, ih _ hndrest hdisj']
      simp [filterUndef, isUndef]
    | num n =>
      simp only [mergeSource]
      rw [setKey_eq_append_of_absent _ hacck, ih _ hndrest hdisj']
      simp [filterUndef, isUndef]
    | str s =>
      simp only [mergeSource]
      rw [setKey_eq_append_of_absent _ hacck, ih _ hndrest hdisj']
      simp [filterUndef, isUndef]

/-- `deepMerge(x)` of a single duplicate-key-free object replays it into
the empty accumulator, dropping its `undefined`-valued entries. -/
theorem mergeSource_nil_eq_filterUndef (entries : Entries)
    (hnd : (entries.map Prod.fst).Nodup) :
    mergeSource [] entries = filterUndef entries := by
  simpa using mergeSource_eq_append_of_disjoint [] entries hnd (by simp [getKey])

/-- The per-key outcome of merging one source value over the accumulator's
current value: `undefined` keeps the old value, arrays replace, two plain
objects merge recursively, anything else replaces. -/
def mergeValue (accVal : Option JValue) (v : JValue) : Option JValue :=
  match v with
  | .undef => accVal
  | .arr xs => some (.arr xs)
  | .obj fs =>
    match accVal with
    | some (.obj gs) => some (.obj (mergeSource (filterUndef gs) fs))
    | _ => some (.obj fs)
  | w => some w

/-- Pointwise characterisation of one source-merge pass: for a
duplicate-key-free source, the result at key `k` is the accumulator's value
combined with the source's value at `k` by `mergeValue`. -/
theorem getKey_mergeSource (acc : Entries) (entries : Entries) (k : String)
    (hnd : (entries.map Prod.fst).Nodup) :
    getKey (mergeSource acc entries) k =
      match getKey entries k with
      | none => getKey acc k
      | some v => mergeValue (getKey acc k) v := by
  induction entries generalizing acc with
  | nil => simp [mergeSource, getKey]
  | cons hd rest ih =>
    obtain ⟨k', v⟩ := hd
    simp only [List.map_cons, List.nodup_cons] at hnd
    obtain ⟨hknotin, hndrest⟩ := hnd
    by_cases hk : k' = k
    · subst hk
      have hfr : ∀ p ∈ rest, p.1 ≠ k' := by
        intro p hp hpk
        exact hknotin (hpk ▸ List.mem_map_of_mem Prod.fst hp)
      have hrestk : getKey rest k' = none := by
        cases hr : getKey rest k' with
        | none => rfl
        | some w => exact absurd rfl (hfr _ (getKey_mem hr))
      cases v with
      | undef =>
        simp only [mergeSource, getKey_mergeSource_of_not_mem _ rest k' hfr]
        simp [getKey, mergeValue]
      | arr xs =>
        simp only [mergeSource, getKey_mergeSource_of_not_mem _ rest k' hfr]
        simp [getKey, mergeValue, getKey_setKey_self]
      | obj fs =>
        simp only [mergeSource]
        cases hacc : getKey acc k' with
        | none =>
          simp only [getKey_mergeSource_of_not_mem _ rest k' hfr]
          simp [getKey, mergeValue, getKey_setKey_self, hacc]
        | some w =>
          cases w <;>
            simp only [getKey_mergeSource_of_not_mem _ rest k' hfr] <;>
            simp [getKey, mergeValue, getKey_setKey_self, hacc]
      | null =>
        simp only [mergeSource, getKey_mergeSource_of_not_mem _ rest k' hfr]
        simp [getKey, mergeValue, getKey_setKey_self]
      | bool b =>
        simp only [mergeSource, getKey_mergeSource_of_not_mem _ rest k' hfr]
        simp [getKey, mergeValue, getKey_setKey_self]
      | num n =>
        simp only [mergeSource, getKey_mergeSource_of_not_mem _ rest k' hfr]
        simp [getKey, mergeValue, getKey_setKey_self]
      | str s =>
        simp only [mergeSource, getKey_mergeSource_of_not_mem _ rest k' hfr]
        simp [getKey, mergeValue, getKey_setKey_self]
    · have hgl : getKey ((k', v) :: rest) k = getKey rest k := by
        simp [getKey, hk]
      cases v with
      | undef =>
        simp only [mergeSource, hgl]
        exact ih acc hndrest
      | arr xs =>
        simp only [mergeSource, hgl]
        rw [ih _ hndrest, getKey_setKey_ne _ hk]
      | obj fs =>
        simp only [mergeSource]
        cases hacc : getKey acc k' with
        | none =>
          rw [hgl, ih _ hndrest, getKey_setKey_ne _ hk]
        | some w =>
          cases w <;> rw [hgl, ih _ hndrest, getKey_setKey_ne _ hk]
      | null =>
        simp only [mergeSource, hgl]
        rw [ih _ hndrest, getKey_setKey_ne _ hk]
      | bool b =>
        simp only [mergeSource, hgl]
        rw [ih _ hndrest, getKey_setKey_ne _ hk]
      | num n =>
        simp only [mergeSource, hgl]
        rw [ih _ hndrest, getKey_setKey_ne _ hk]
      | str s =>
        simp only [mergeSource, hgl]
        rw [ih _ hndrest, getKey_setKey_ne _ hk]

/-! ## Well-formedness extraction -/

theorem isUndef_eq_false_of_wf {v : JValue} (h : wfValue v = true) : isUndef v = false := by
  cases v <;> simp_all [wfValue, isUndef]

theorem wfObj_nodup {fs : Entries} (h : wfValue (.obj fs) = true) :
    (fs.map Prod.fst).Nodup := by
  simp [wfValue] at h
  exact h.1

theorem wfFields_of_wfObj {fs : Entries} (h : wfValue (.obj fs) = true) :
    wfFields fs = true := by
  simp [wfValue] at h
  exact h.2

theorem wfValue_of_mem {fs : Entries} {k : String} {v : JValue}
    (hwf : wfFields fs = true) (hmem : (k, v) ∈ fs) : wfValue v = true := by
  induction fs with
  | nil => simp at hmem
  | cons hd tl ih =>
    obtain ⟨k', v'⟩ := hd
    simp only [wfFields, Bool.and_eq_true] at hwf
    rcases List.mem_cons.mp hmem with h | h
    · cases h
      exact hwf.1
    · exact ih hwf.2 h

theorem wfValue_getKey {fs : Entries} {k : String} {v : JValue}
    (hwf : wfValue (.obj fs) = true) (h : getKey fs k = some v) : wfValue v = true :=
  wfValue_of_mem (wfFields_of_wfObj hwf) (getKey_mem h)

theorem filterUndef_eq_self {fs : Entries} (h : wfFields fs = true) :
    filterUndef fs = fs := by
  induction fs with
  | nil => rfl
  | cons hd tl ih =>
    obtain ⟨k, v⟩ := hd
    simp only [wfFields, Bool.and_eq_true] at h
    simp [filterUndef, isUndef_eq_false_of_wf h.1] at ih ⊢
    exact ih h.2

theorem deepMerge_pair (A B : Entries) :
    deepMerge [.obj A, .obj B] = mergeSource (mergeSource [] A) B := rfl

theorem deepMerge_single (A : Entries) : deepMerge [.obj A] = mergeSource [] A := rfl

/-- For a well-formed object, a one-source merge is the identity. -/
theorem deepMerge_single_eq_self {A : Entries} (hA : wfValue (.obj A) = true) :
    deepMerge [.obj A] = A := by
  rw [deepMerge_single, mergeSource_nil_eq_filterUndef A (wfObj_nodup hA),
    filterUndef_eq_self (wfFields_of_wfObj hA)]

theorem deepMerge_pair_eq {A : Entries} (B : Entries) (hA : wfValue (.obj A) = true) :
    deepMerge [.obj A, .obj B] = mergeSource A B := by
  rw [deepMerge_pair, mergeSource_nil_eq_filterUndef A (wfObj_nodup hA),
    filterUndef_eq_self (wfFields_of_wfObj hA)]

/-! ## Claim C1: later documents take precedence, plain mappings merge
recursively -/

/-- C1: for plain mappings merged left-to-right by `deepMerge`, a later
document takes precedence over an earlier one — when both documents hold a
plain mapping at the same key the two mappings are merged recursively,
any other defined value of the later document overrides the earlier one,
keys the later document does not mention keep the earlier document's
value, and the spec's example merge evaluates as stated. -/
theorem deepMerge_later_precedence (A B : Entries)
    (hA : wfValue (.obj A) = true) (hB : wfValue (.obj B) = true) :
    (∀ k gs fs, getKey A k = some (.obj gs) → getKey B k = some (.obj fs) →
      getKey (deepMerge [.obj A, .obj B]) k = some (.obj (deepMerge [.obj gs, .obj fs])))
    ∧ (∀ k v, getKey B k = some v →
        (∀ fs, v = .obj fs → ∀ gs, getKey A k ≠ some (.obj gs)) →
        getKey (deepMerge [.obj A, .obj B]) k = some v)
    ∧ (∀ k, getKey B k = none → getKey (deepMerge [.obj A, .obj B]) k = getKey A k)
    ∧ deepMerge [.obj [("a", .num 1), ("nested", .obj [("x", .num 1), ("y", .num 2)])],
        .obj [("b", .num 2), ("nested", .obj [("y", .num 3)])]] =
      [("a", .num 1), ("nested", .obj [("x", .num 1), ("y", .num 3)]), ("b", .num 2)] := by
  have hpair := deepMerge_pair_eq B hA
  have hchar := fun k => getKey_mergeSource A B k (wfObj_nodup hB)
  refine ⟨?_, ?_, ?_, ?_⟩
  · intro k gs fs hAk hBk
    have hgs : wfValue (.obj gs) = true := wfValue_getKey hA hAk
    rw [hpair, hchar k, hBk]
    simp only [mergeValue, hAk]
    rw [filterUndef_eq_self (wfFields_of_wfObj hgs), deepMerge_pair_eq fs hgs]
  · intro k v hBk hcond
    have hv : wfValue v = true := wfValue_getKey hB hBk
    rw [hpair, hchar k, hBk]
    cases v with
    | undef => simp [wfValue] at hv
    | obj fs =>
      cases hAk : getKey A k with
      | none => simp [mergeValue, hAk]
      | some w =>
        cases w with
        | obj gs => exact absurd hAk (hcond fs rfl gs)
        | undef => simp [mergeValue, hAk]
        | null => simp [mergeValue, hAk]
        | bool b => simp [mergeValue, hAk]
        | num n => simp [mergeValue, hAk]
        | str s => simp [mergeValue, hAk]
        | arr xs => simp [mergeValue, hAk]
    | null => simp [mergeValue]
    | bool b => simp [mergeValue]
    | num n => simp [mergeValue]
    | str s => simp [mergeValue]
    | arr xs => simp [mergeValue]
  · intro k hBk
    rw [hpair, hchar k, hBk]
  · simp [deepMerge, mergeSource, setKey, getKey, filterUndef, truthy, entriesOf, isUndef]

/-- Witness for C1 at the spec's own example: both mappings are
well-formed, and the `nested` key is merged recursively. -/
theorem deepMerge_later_precedence_witness :
    getKey (deepMerge [.obj [("a", .num 1), ("nested", .obj [("x", .num 1), ("y", .num 2)])],
        .obj [("b", .num 2), ("nested", .obj [("y", .num 3)])]]) "nested" =
      some (.obj (deepMerge [.obj [("x", .num 1), ("y", .num 2)], .obj [("y", .num 3)]])) :=
  (deepMerge_later_precedence
    [("a", .num 1), ("nested", .obj [("x", .num 1), ("y", .num 2)])]
    [("b", .num 2), ("nested", .obj [("y", .num 3)])]
    (by decide) (by decide)).1 "nested" _ _ rfl rfl

/-! ## Claim C2: arrays are replaced wholesale -/

/-- C2: an array value in the later document fully replaces the
accumulator's value at that key — it is never concatenated or merged
element-by-element, also for arrays sitting inside nested plain objects —
and the spec's `lines` example evaluates as stated. -/
theorem deepMerge_array_replaces (A B : Entries)
    (hA : wfValue (.obj A) = true) (hB : wfValue (.obj B) = true) :
    (∀ k xs, getKey B k = some (.arr xs) →
      getKey (deepMerge [.obj A, .obj B]) k = some (.arr xs))
    ∧ (∀ k gs fs k2 xs, getKey A k = some (.obj gs) → getKey B k = some (.obj fs) →
        getKey fs k2 = some (.arr xs) →
        ∃ r, getKey (deepMerge [.obj A, .obj B]) k = some (.obj r) ∧
          getKey r k2 = some (.arr xs))
    ∧ deepMerge [.obj [("lines", .arr [.arr [.str "a", .str "b"]])],
        .obj [("lines", .arr [.arr [.str "c"]])]] =
      [("lines", .arr [.arr [.str "c"]])] := by
  have hpair := deepMerge_pair_eq B hA
  have hchar := fun k => getKey_mergeSource A B k (wfObj_nodup hB)
  refine ⟨?_, ?_, ?_⟩
  · intro k xs hBk
    rw [hpair, hchar k, hBk]
    simp [mergeValue]
  · intro k gs fs k2 xs hAk hBk hfs
    have hgs : wfValue (.obj gs) = true := wfValue_getKey hA hAk
    have hfswf : wfValue (.obj fs) = true := wfValue_getKey hB hBk
    refine ⟨mergeSource (filterUndef gs) fs, ?_, ?_⟩
    · rw [hpair, hchar k, hBk]
      simp [mergeValue, hAk]
    · rw [getKey_mergeSource _ fs k2 (wfObj_nodup hfswf), hfs]
      simp [mergeValue]
  · simp [deepMerge, mergeSource, setKey, getKey, filterUndef, truthy, entriesOf, isUndef]

/-- Witness for C2 at the spec's `lines` example. -/
theorem deepMerge_array_replaces_witness :
    getKey (deepMerge [.obj [("lines", .arr [.arr [.str "a", .str "b"]])],
        .obj [("lines", .arr [.arr [.str "c"]])]]) "lines" =
      some (.arr [.arr [.str "c"]]) :=
  (deepMerge_array_replaces
    [("lines", .arr [.arr [.str "a", .str "b"]])]
    [("lines", .arr [.arr [.str "c"]])]
    (by decide) (by decide)).1 "lines" _ rfl

/-! ## Claim C8: `undefined` never overwrites -/

/-- C8: during `deepMerge`, `undefined` or absent values never overwrite
an existing value — a key whose value is `undefined` in a later
duplicate-key-free source, or absent from it, leaves the result at that key
exactly as the merge without that source's entry produced it — and an
entirely `undefined` source argument is a no-op:
`merge(X, undefined, Y) = merge(X, Y)` for all documents `X`, `Y`. -/
theorem deepMerge_undef_never_overwrites (A B : Entries)
    (hndB : (B.map Prod.fst).Nodup) :
    (∀ k, getKey B k = some .undef →
      getKey (deepMerge [.obj A, .obj B]) k = getKey (deepMerge [.obj A]) k)
    ∧ (∀ k, getKey B k = none →
      getKey (deepMerge [.obj A, .obj B]) k = getKey (deepMerge [.obj A]) k)
    ∧ (∀ X Y : JValue, deepMerge [X, .undef, Y] = deepMerge [X, Y]) := by
  refine ⟨?_, ?_, fun _ _ => rfl⟩
  · intro k hBk
    rw [deepMerge_pair, getKey_mergeSource _ B k hndB, hBk, deepMerge_single]
    rfl
  · intro k hBk
    rw [deepMerge_pair, getKey_mergeSource _ B k hndB, hBk, deepMerge_single]

/-- Witness for C8: an `undefined` value for `a` in the later source leaves
the earlier source's value in place. -/
theorem deepMerge_undef_never_overwrites_witness :
    getKey (deepMerge [.obj [("a", .num 1)], .obj [("a", .undef)]]) "a" =
      getKey (deepMerge [.obj [("a", .num 1)]]) "a" :=
  (deepMerge_undef_never_overwrites [("a", .num 1)] [("a", .undef)] (by decide)).1 "a" rfl

/-! ## Migration-loop equations -/

theorem runMigrations_stop {s t : Int} (doc : Entries) (h : ¬s < t) :
    runMigrations s t doc = doc := by
  rw [runMigrations]
  simp [h]

theorem runMigrations_exhausted {s t : Int} (doc : Entries) (hm : findMigration s = none) :
    runMigrations s t doc = doc := by
  rw [runMigrations]
  split
  · split
    · rfl
    · simp_all
  · rfl

theorem runMigrations_step {s t : Int} (doc : Entries) (h : s < t) {m : Migration}
    (hm : findMigration s = some m) :
    runMigrations s t doc = runMigrations m.toVersion t (m.migrate doc) := by
  rw [runMigrations]
  simp only [h, dif_pos]
  split
  · simp_all
  · rename_i m' hm'
    rw [hm] at hm'
    cases hm'
    rfl

/-! ## Claim C3: the migration chain loop -/

/-- C3 (amended): non-record input is returned unchanged without running
the chain; for a record, `migrateConfig` starts at the detected version —
it returns the document value-equal when already at or above the target,
returns it value-equal when no migration matches the current version
(exhaustion is silent), advances through the matching migration otherwise,
and from detected version 1 the full chain to `CURRENT_VERSION` is the
composition v1→v2, v2→v3, v3→v4. -/
theorem migrateConfig_chain :
    (∀ (d : JValue) (t : Int), isRecord d = false → migrateConfig d t = d)
    ∧ (∀ (fs : Entries) (t : Int), t ≤ detectVersion (.obj fs) →
        migrateConfig (.obj fs) t = .obj fs)
    ∧ (∀ (fs : Entries) (t : Int), detectVersion (.obj fs) < t →
        findMigration (detectVersion (.obj fs)) = none →
        migrateConfig (.obj fs) t = .obj fs)
    ∧ (∀ (fs : Entries) (t : Int) (m : Migration), detectVersion (.obj fs) < t →
        findMigration (detectVersion (.obj fs)) = some m →
        migrateConfig (.obj fs) t = .obj (runMigrations m.toVersion t (m.migrate fs)))
    ∧ (∀ fs : Entries, detectVersion (.obj fs) = 1 →
        migrateConfig (.obj fs) CURRENT_VERSION =
          .obj (migrateV3toV4 (migrateV2toV3 (migrateV1toV2 fs)))) := by
  have hm1 : findMigration 1 = some ⟨1, 2, "Migrate from v1 to v2", migrateV1toV2⟩ := rfl
  have hm2 : findMigration 2 = some ⟨2, 3, "Migrate from v2 to v3", migrateV2toV3⟩ := rfl
  have hm3 : findMigration 3 = some ⟨3, 4, "Add custom modules support", migrateV3toV4⟩ := rfl
  refine ⟨?_, ?_, ?_, ?_, ?_⟩
  · intro d t h
    cases d <;> first | rfl | simp [isRecord] at h
  · intro fs t h
    simp only [migrateConfig]
    rw [runMigrations_stop _ (by omega)]
  · intro fs t h hm
    simp only [migrateConfig]
    rw [runMigrations_exhausted _ hm]
  · intro fs t m h hm
    simp only [migrateConfig]
    rw [runMigrations_step _ h hm]
  · intro fs hdet
    simp only [migrateConfig, CURRENT_VERSION, hdet]
    rw [runMigrations_step _ (by norm_num) hm1,
      runMigrations_step _ (by norm_num) hm2,
      runMigrations_step _ (by norm_num) hm3,
      runMigrations_stop _ (by norm_num)]

/-- Witness for C3 at the empty record, which detects as version 1 and is
carried through the full chain. -/
theorem migrateConfig_chain_witness :
    migrateConfig (.obj []) CURRENT_VERSION =
      .obj (migrateV3toV4 (migrateV2toV3 (migrateV1toV2 []))) :=
  migrateConfig_chain.2.2.2.2 [] rfl

/-- Counterexample for C3 as stated: for the non-object document
`"hello"` and target 2 the detected version is 1 and a migration from
version 1 exists, yet `migrateConfig` returns the document unchanged at
detected version 1 — the claimed process would have applied that migration
and reached version 2. -/
theorem migrateConfig_nonobject_counterexample :
    migrateConfig (.str "hello") 2 = .str "hello"
    ∧ detectVersion (.str "hello") = 1
    ∧ findMigration (detectVersion (.str "hello")) =
        some ⟨1, 2, "Migrate from v1 to v2", migrateV1toV2⟩
    ∧ detectVersion (migrateConfig (.str "hello") 2) ≠ 2 :=
  ⟨rfl, rfl, rfl, by decide⟩

/-! ## Claim C6: what the transforms preserve -/

theorem getKey_copyFieldIf_ne (m d : Entries) (key k : String) (p : JValue → Bool)
    (h : key ≠ k) : getKey (copyFieldIf m d key p) k = getKey m k := by
  unfold copyFieldIf
  cases getKey d key with
  | none => rfl
  | some v =>
    by_cases hp : p v = true
    · simp [hp, getKey_setKey_ne _ h]
    · simp [hp]

theorem getKey_copyFieldIf_self {d : Entries} (m : Entries) {key : String} {v : JValue}
    {p : JValue → Bool} (hd : getKey d key = some v) (hp : p v = true) :
    getKey (copyFieldIf m d key p) key = some v := by
  unfold copyFieldIf
  rw [hd]
  simp [hp, getKey_setKey_self]

/-- C6 (amended): the v2→v3 and v3→v4 transforms copy forward unchanged
every field they do not intentionally change (`version` and
`updatemessage`, resp. `version` and an absent-or-nullish `customModules`)
and stamp their own `toVersion`; the v1→v2 transform stamps version 2 but
rebuilds the document from a fixed whitelist of known v1 fields (here
witnessed by `flexMode`), dropping fields unknown to it. -/
theorem migration_transforms_frame :
    (∀ (fs : Entries) (k : String) (v : JValue), k ≠ "version" → k ≠ "updatemessage" →
      getKey fs k = some v → getKey (migrateV2toV3 fs) k = some v)
    ∧ (∀ fs : Entries, getKey (migrateV2toV3 fs) "version" = some (.num 3))
    ∧ (∀ (fs : Entries) (k : String) (v : JValue), k ≠ "version" → k ≠ "customModules" →
        getKey fs k = some v → getKey (migrateV3toV4 fs) k = some v)
    ∧ (∀ fs : Entries, getKey (migrateV3toV4 fs) "version" = some (.num 4))
    ∧ (∀ (fs : Entries) (v : JValue), getKey fs "customModules" = some v →
        v ≠ .undef → v ≠ .null →
        getKey (migrateV3toV4 fs) "customModules" = some v)
    ∧ (∀ fs : Entries, getKey (migrateV1toV2 fs) "version" = some (.num 2))
    ∧ (∀ (fs : Entries) (s : String), getKey fs "flexMode" = some (.str s) →
        getKey (migrateV1toV2 fs) "flexMode" = some (.str s)) := by
  refine ⟨?_, ?_, ?_, ?_, ?_, ?_, ?_⟩
  · intro fs k v hkv hku h
    unfold migrateV2toV3
    rw [getKey_setKey_ne _ (Ne.symm hku), getKey_setKey_ne _ (Ne.symm hkv)]
    exact h
  · intro fs
    unfold migrateV2toV3
    rw [getKey_setKey_ne _ (by decide), getKey_setKey_self]
  · intro fs k v hkv hkc h
    have hbase : getKey (setKey fs "version" (.num 4)) k = some v := by
      rw [getKey_setKey_ne _ (Ne.symm hkv)]
      exact h
    simp only [migrateV3toV4]
    split
    · rw [getKey_setKey_ne _ (Ne.symm hkc)]
      exact hbase
    · rw [getKey_setKey_ne _ (Ne.symm hkc)]
      exact hbase
    · rw [getKey_setKey_ne _ (Ne.symm hkc)]
      exact hbase
    · exact hbase
  · intro fs
    have hbase : getKey (setKey fs "version" (.num 4)) "version" = some (.num 4) :=
      getKey_setKey_self _ _ _
    simp only [migrateV3toV4]
    split
    · rw [getKey_setKey_ne _ (by decide)]
      exact hbase
    · rw [getKey_setKey_ne _ (by decide)]
      exact hbase
    · rw [getKey_setKey_ne _ (by decide)]
      exact hbase
    · exact hbase
  · intro fs v h hu hn
    have hcm : getKey (setKey fs "version" (.num 4)) "customModules" = some v := by
      rw [getKey_setKey_ne _ (by decide)]
      exact h
    simp only [migrateV3toV4]
    split <;> simp_all
  · intro fs
    unfold migrateV1toV2
    rw [getKey_setKey_ne _ (by decide), getKey_setKey_self]
  · intro fs s h
    unfold migrateV1toV2
    rw [getKey_setKey_ne _ (by decide), getKey_setKey_ne _ (by decide),
      getKey_copyFieldIf_ne _ _ _ _ _ (by decide),
      getKey_copyFieldIf_ne _ _ _ _ _ (by decide),
      getKey_copyFieldIf_ne _ _ _ _ _ (by decide),
      getKey_copyFieldIf_ne _ _ _ _ _ (by decide),
      getKey_copyFieldIf_ne _ _ _ _ _ (by decide),
      getKey_copyFieldIf_ne _ _ _ _ _ (by decide),
      getKey_copyFieldIf_ne _ _ _ _ _ (by decide),
      getKey_copyFieldIf_ne _ _ _ _ _ (by decide)]
    exact getKey_copyFieldIf_self _ h rfl

/-- Witness for C6: a field unknown to the v2→v3 transform is carried
forward, and the version stamps evaluate. -/
theorem migration_transforms_frame_witness :
    getKey (migrateV2toV3 [("foo", .num 7)]) "foo" = some (.num 7) :=
  migration_transforms_frame.1 [("foo", .num 7)] "foo" (.num 7)
    (by decide) (by decide) rfl

/-- Counterexample for C6 as stated: the v1→v2 transform drops the field
`foo`, unknown to it, from a version-1 document, instead of copying it
forward. -/
theorem migration_v1_drops_unknown_counterexample :
    getKey (migrateV1toV2 [("foo", .num 42)]) "foo" = none
    ∧ migrateV1toV2 [("foo", .num 42)] =
        [("version", .num 2), ("updatemessage", updateMessageV2)] :=
  ⟨rfl, rfl⟩

/-! ## Version bookkeeping of the chain -/

theorem getKey_version_migrateV1toV2 (fs : Entries) :
    getKey (migrateV1toV2 fs) "version" = some (.num 2) := by
  unfold migrateV1toV2
  rw [getKey_setKey_ne _ (by decide), getKey_setKey_self]

theorem getKey_version_migrateV2toV3 (fs : Entries) :
    getKey (migrateV2toV3 fs) "version" = some (.num 3) := by
  unfold migrateV2toV3
  rw [getKey_setKey_ne _ (by decide), getKey_setKey_self]

theorem getKey_version_migrateV3toV4 (fs : Entries) :
    getKey (migrateV3toV4 fs) "version" = some (.num 4) := by
  have hbase : getKey (setKey fs "version" (.num 4)) "version" = some (.num 4) :=
    getKey_setKey_self _ _ _
  simp only [migrateV3toV4]
  split
  · rw [getKey_setKey_ne _ (by decide)]
    exact hbase
  · rw [getKey_setKey_ne _ (by decide)]
    exact hbase
  · rw [getKey_setKey_ne _ (by decide)]
    exact hbase
  · exact hbase

theorem detectVersion_migrateV3toV4 (fs : Entries) :
    detectVersion (.obj (migrateV3toV4 fs)) = 4 := by
  simp [detectVersion, getKey_version_migrateV3toV4]

theorem findMigration_none {s : Int} (h1 : s ≠ 1) (h2 : s ≠ 2) (h3 : s ≠ 3) :
    findMigration s = none := by
  have e1 : ((1 : Int) == s) = false := by simp [Ne.symm h1]
  have e2 : ((2 : Int) == s) = false := by simp [Ne.symm h2]
  have e3 : ((3 : Int) == s) = false := by simp [Ne.symm h3]
  simp [findMigration, migrations, List.find?, e1, e2, e3]

/-- A record whose detected version is covered by the chain (1, 2 or 3) is
migrated all the way to version 4. -/
theorem detectVersion_migrateConfig_low {e : Entries}
    (h1 : 1 ≤ detectVersion (.obj e)) (h3 : detectVersion (.obj e) ≤ 3) :
    migrateConfig (.obj e) 4 =
      .obj (runMigrations (detectVersion (.obj e)) 4 e) ∧
    detectVersion (migrateConfig (.obj e) 4) = 4 := by
  have hm1 : findMigration 1 = some ⟨1, 2, "Migrate from v1 to v2", migrateV1toV2⟩ := rfl
  have hm2 : findMigration 2 = some ⟨2, 3, "Migrate from v2 to v3", migrateV2toV3⟩ := rfl
  have hm3 : findMigration 3 = some ⟨3, 4, "Add custom modules support", migrateV3toV4⟩ := rfl
  refine ⟨rfl, ?_⟩
  simp only [migrateConfig]
  have : detectVersion (.obj e) = 1 ∨ detectVersion (.obj e) = 2 ∨
      detectVersion (.obj e) = 3 := by omega
  rcases this with h | h | h <;> rw [h]
  · rw [runMigrations_step _ (by norm_num) hm1, runMigrations_step _ (by norm_num) hm2,
      runMigrations_step _ (by norm_num) hm3, runMigrations_stop _ (by norm_num)]
    exact detectVersion_migrateV3toV4 _
  · rw [runMigrations_step _ (by norm_num) hm2, runMigrations_step _ (by norm_num) hm3,
      runMigrations_stop _ (by norm_num)]
    exact detectVersion_migrateV3toV4 _
  · rw [runMigrations_step _ (by norm_num) hm3, runMigrations_stop _ (by norm_num)]
    exact detectVersion_migrateV3toV4 _

/-- The detected version never decreases across `migrateConfig` to the
current version. -/
theorem detectVersion_migrateConfig_ge (v : JValue) :
    detectVersion v ≤ detectVersion (migrateConfig v CURRENT_VERSION) := by
  cases v with
  | obj e =>
    simp only [CURRENT_VERSION]
    by_cases hge : 4 ≤ detectVersion (.obj e)
    · simp only [migrateConfig]
      rw [runMigrations_stop _ (by omega)]
    · by_cases hlow : 1 ≤ detectVersion (.obj e)
      · have := (detectVersion_migrateConfig_low hlow (by omega)).2
        omega
      · simp only [migrateConfig]
        rw [runMigrations_exhausted _ (findMigration_none (by omega) (by omega) (by omega))]
  | undef => exact le_refl _
  | null => exact le_refl _
  | bool b => exact le_refl _
  | num n => exact le_refl _
  | str s => exact le_refl _
  | arr xs => exact le_refl _

/-! ## Claim C7: on-disk version across a load -/

/-- C7 (amended): for a scope file that parses as JSON, a load never
regresses the on-disk detected version; a record whose detected version the
chain covers (1, 2 or 3 — including records without a `version` key, which
detect as 1) is rewritten on disk at `CURRENT_VERSION`; a document with a
`version` key already at or above `CURRENT_VERSION` is returned as-is with
the file untouched; a file that is corrupt beyond parse is skipped and left
untouched. -/
theorem load_version_never_regresses :
    (∀ (fs : FS) (p : String) (v : JValue), readFS fs p = some (.json v) →
      ∃ w, readFS (loadSingleScopeSettings fs p).2 p = some (.json w) ∧
        detectVersion v ≤ detectVersion w)
    ∧ (∀ (fs : FS) (p : String) (v : JValue), readFS fs p = some (.json v) →
        1 ≤ detectVersion v → detectVersion v ≤ 3 → isRecord v = true →
        readFS (loadSingleScopeSettings fs p).2 p =
          some (.json (migrateConfig v CURRENT_VERSION)) ∧
        detectVersion (migrateConfig v CURRENT_VERSION) = CURRENT_VERSION)
    ∧ (∀ (fs : FS) (p : String) (v : JValue), readFS fs p = some (.json v) →
        hasVersionField v = true → CURRENT_VERSION ≤ detectVersion v →
        loadSingleScopeSettings fs p = (v, fs))
    ∧ (∀ (fs : FS) (p : String), readFS fs p = some .malformed →
        loadSingleScopeSettings fs p = (.undef, fs)) := by
  refine ⟨?_, ?_, ?_, ?_⟩
  · intro fs p v h
    simp only [loadSingleScopeSettings, loadSingleBody, h]
    by_cases hc : (!hasVersionField v || needsMigration v CURRENT_VERSION) = true
    · rw [if_pos hc]
      exact ⟨migrateConfig v CURRENT_VERSION,
        getKey_setKey_self _ _ _, detectVersion_migrateConfig_ge v⟩
    · rw [if_neg hc]
      exact ⟨v, h, le_refl _⟩
  · intro fs p v h h1 h3 hrec
    have hneed : needsMigration v CURRENT_VERSION = true := by
      simp [needsMigration, CURRENT_VERSION]
      omega
    have hv4 : detectVersion (migrateConfig v CURRENT_VERSION) = CURRENT_VERSION := by
      cases v with
      | obj e =>
        simp only [CURRENT_VERSION] at *
        exact (detectVersion_migrateConfig_low h1 h3).2
      | undef => simp [isRecord] at hrec
      | null => simp [isRecord] at hrec
      | bool b => simp [isRecord] at hrec
      | num n => simp [isRecord] at hrec
      | str s => simp [isRecord] at hrec
      | arr xs => simp [isRecord] at hrec
    refine ⟨?_, hv4⟩
    simp only [loadSingleScopeSettings, loadSingleBody, h, hneed, Bool.or_true, if_pos]
    exact getKey_setKey_self _ _ _
  · intro fs p v h hver hge
    have hneed : needsMigration v CURRENT_VERSION = false := by
      simp [needsMigration]
      omega
    simp [loadSingleScopeSettings, loadSingleBody, h, hneed, hver]
  · intro fs p h
    simp [loadSingleScopeSettings, loadSingleBody, h]

/-- Witness for C7: a version-3 record on disk is rewritten at version 4
by a load. -/
theorem load_version_never_regresses_witness :
    readFS (loadSingleScopeSettings [("p", .json (.obj [("version", .num 3)]))] "p").2 "p" =
      some (.json (migrateConfig (.obj [("version", .num 3)]) CURRENT_VERSION)) :=
  (load_version_never_regresses.2.1 [("p", .json (.obj [("version", .num 3)]))] "p"
    (.obj [("version", .num 3)]) rfl (by decide) (by decide) rfl).1

/-- Counterexample for C7 as stated: a parse-clean scope file at version 5
is left on disk at detected version 5, not at `CURRENT_VERSION`, by a
load. -/
theorem load_leaves_future_version_counterexample :
    (loadSingleScopeSettings [("p", .json (.obj [("version", .num 5)]))] "p").2 =
      [("p", .json (.obj [("version", .num 5)]))]
    ∧ detectVersion (.obj [("version", .num 5)]) ≠ CURRENT_VERSION :=
  ⟨rfl, by decide⟩

/-! ## Claim C9: the `.gitignore` guard -/

/-- After appending the block, the pattern is present. -/
theorem includes_append_block (c : String) :
    includesSubstr (c ++ gitignoreAppendBlock) localPattern = true := by
  have hblk : localPattern.data <:+: gitignoreAppendBlock.data := by decide
  obtain ⟨s, t, h⟩ := hblk
  simp only [includesSubstr, decide_eq_true_eq, String.data_append]
  exact ⟨c.data ++ s, t, by simp [← h]⟩

/-- C9: `ensureLocalSettingsGitignored` (invoked after every save to the
local scope) does nothing when `.gitignore` does not exist (no file is
created and nothing is written); when `.gitignore` exists without the
local-settings pattern it appends the pattern exactly once, under a header
comment; and the whole operation is idempotent. -/
theorem gitignore_guard_idempotent :
    (∀ fs : FS, readFS fs gitignorePath = none → ensureLocalSettingsGitignored fs = fs)
    ∧ (∀ (fs : FS) (content : String), readFS fs gitignorePath = some (.text content) →
        includesSubstr content localPattern = false →
        ensureLocalSettingsGitignored fs =
          writeFS fs gitignorePath (.text (content ++ gitignoreAppendBlock)))
    ∧ (∀ fs : FS, ensureLocalSettingsGitignored (ensureLocalSettingsGitignored fs) =
        ensureLocalSettingsGitignored fs)
    ∧ (∀ (S : Entries) (fs : FS), saveScopedSettings S .«local» fs =
        ensureLocalSettingsGitignored (writeFS fs localSettingsPath
          (.json (.obj (setKey S "version" (.num CURRENT_VERSION)))))) := by
  refine ⟨?_, ?_, ?_, fun S fs => rfl⟩
  · intro fs h
    simp [ensureLocalSettingsGitignored, h]
  · intro fs content h hnin
    simp [ensureLocalSettingsGitignored, h, hnin]
  · intro fs
    cases h : readFS fs gitignorePath with
    | none => simp [ensureLocalSettingsGitignored, h]
    | some c =>
      cases c with
      | text content =>
        by_cases hin : includesSubstr content localPattern = true
        · simp [ensureLocalSettingsGitignored, h, hin]
        · have step : ensureLocalSettingsGitignored fs =
              writeFS fs gitignorePath (.text (content ++ gitignoreAppendBlock)) := by
            simp [ensureLocalSettingsGitignored, h, hin]
          rw [step]
          have hread : readFS (writeFS fs gitignorePath
              (.text (content ++ gitignoreAppendBlock))) gitignorePath =
              some (.text (content ++ gitignoreAppendBlock)) :=
            getKey_setKey_self _ _ _
          simp [ensureLocalSettingsGitignored, hread, includes_append_block]
      | json v => simp [ensureLocalSettingsGitignored, h]
      | malformed => simp [ensureLocalSettingsGitignored, h]
      | denied => simp [ensureLocalSettingsGitignored, h]

/-- Witness for C9: an existing `.gitignore` without the pattern gains the
block exactly once. -/
theorem gitignore_guard_idempotent_witness :
    ensureLocalSettingsGitignored [(gitignorePath, .text "node_modules\n")] =
      writeFS [(gitignorePath, .text "node_modules\n")] gitignorePath
        (.text ("node_modules\n" ++ gitignoreAppendBlock)) :=
  gitignore_guard_idempotent.2.1 [(gitignorePath, .text "node_modules\n")]
    "node_modules\n" rfl (by decide)

/-! ## Claim C5: error propagation of `resolveSettings` -/

/-- C5: every per-scope load failure — missing file, malformed JSON, or a
read error such as a permission failure (which throws inside the loader and
is caught there) — degrades to "scope absent" without any exception
reaching the caller; an absent scope contributes nothing to the merge; and
`resolveSettings` raises an error exactly when the merged result fails
canonical schema validation. -/
theorem resolve_error_iff_validation_fails :
    (∀ (fs : FS) (p : String), readFS fs p = none →
      loadSingleScopeSettings fs p = (.undef, fs))
    ∧ (∀ (fs : FS) (p : String), readFS fs p = some .malformed →
      loadSingleScopeSettings fs p = (.undef, fs))
    ∧ (∀ (fs : FS) (p : String), readFS fs p = some .denied →
      loadSingleBody fs p = .error () ∧ loadSingleScopeSettings fs p = (.undef, fs))
    ∧ (∀ pre post : List JValue, deepMerge (pre ++ .undef :: post) = deepMerge (pre ++ post))
    ∧ (∀ fs : FS, (resolveSettings fs).1 = .error () ↔
        schemaParse (.obj (resolveMerged (loadAllScopes fs).1.1
          (loadAllScopes fs).1.2.1 (loadAllScopes fs).1.2.2)) = none) := by
  refine ⟨?_, ?_, ?_, ?_, ?_⟩
  · intro fs p h
    simp [loadSingleScopeSettings, loadSingleBody, h]
  · intro fs p h
    simp [loadSingleScopeSettings, loadSingleBody, h]
  · intro fs p h
    constructor <;> simp [loadSingleScopeSettings, loadSingleBody, h]
  · intro pre post
    simp [deepMerge, List.foldl_append, truthy]
  · intro fs
    rcases hals : loadAllScopes fs with ⟨⟨u, p, l⟩, fs3⟩
    simp only [resolveSettings, hals]
    cases h : schemaParse (.obj (resolveMerged u p l)) <;> simp [h]

/-- Witness for C5: a missing file degrades to an absent scope. -/
theorem resolve_error_iff_validation_fails_witness :
    loadSingleScopeSettings [] "p" = (.undef, []) :=
  resolve_error_iff_validation_fails.1 [] "p" rfl

/-! ## Index keys never collide with schema field names -/

theorem decimalDigits_head_digit (n : Nat) :
    ∃ c cs, decimalDigits n = c :: cs ∧ c.isDigit = true := by
  induction n using Nat.strong_induction_on with
  | _ n ih =>
    rw [decimalDigits]
    split
    · rename_i h
      refine ⟨Nat.digitChar n, [], rfl, ?_⟩
      interval_cases n <;> decide
    · rename_i h
      obtain ⟨c, cs, hd, hdig⟩ := ih (n / 10) (Nat.div_lt_self (by omega) (by omega))
      exact ⟨c, cs ++ [Nat.digitChar (n % 10)], by rw [hd]; rfl, hdig⟩

/-- A decimal index key starts with a digit, so it is distinct from any
name starting with a non-digit. -/
theorem indexKey_ne_of_head {c0 : Char} {rs : List Char} (hc : c0.isDigit = false)
    (n : Nat) (s : String) (hs : s.data = c0 :: rs) : indexKey n ≠ s := by
  intro he
  obtain ⟨c, cs, hd, hdig⟩ := decimalDigits_head_digit n
  have hdata : (indexKey n).data = s.data := by rw [he]
  simp only [indexKey, hs, hd] at hdata
  cases hdata
  rw [hdig] at hc
  cases hc

/-- `Object.entries` of a truthy non-object yields only decimal index
keys. -/
theorem entriesOf_keys_indexed {v : JValue} (h : isRecord v = false) :
    ∀ q ∈ entriesOf v, ∃ i, q.1 = indexKey i := by
  cases v with
  | obj fs => simp [isRecord] at h
  | arr xs =>
    intro q hq
    simp only [entriesOf, List.mem_map] at hq
    obtain ⟨p, _, hp⟩ := hq
    exact ⟨p.1, by rw [← hp]⟩
  | str s =>
    intro q hq
    simp only [entriesOf, List.mem_map] at hq
    obtain ⟨p, _, hp⟩ := hq
    exact ⟨p.1, by rw [← hp]⟩
  | undef => simp [entriesOf]
  | null => simp [entriesOf]
  | bool b => simp [entriesOf]
  | num n => simp [entriesOf]

theorem truthy_obj (fs : Entries) : truthy (.obj fs) = true := rfl

theorem truthy_undef : truthy .undef = false := rfl

theorem entriesOf_obj (fs : Entries) : entriesOf (.obj fs) = fs := rfl

/-! ## Claim C10: truthy non-object scope files count as sources -/

/-- C10: a scope file whose top-level JSON value is truthy but not a plain
object (a non-zero number, non-empty string, or array) is not treated as
absent: the loader returns the value itself, and `resolveSettings` records
that scope's path in the sources map, while the value contributes no schema
field — the resolved settings are exactly the schema defaults (index keys
merged from an array or string are stripped by validation). -/
theorem truthy_nonobject_scope_is_source (v : JValue)
    (ht : truthy v = true) (hrec : isRecord v = false) :
    (loadSingleScopeSettings [(userSettingsPath, .json v)] userSettingsPath).1 = v
    ∧ ∀ scope : SettingsScope,
        (resolveSettings [(getSettingsPathForScope scope, .json v)]).1 =
          .ok (.obj schemaDefaults,
            match scope with
            | .user => ⟨some userSettingsPath, none, none⟩
            | .project => ⟨none, some projectSettingsPath, none⟩
            | .«local» => ⟨none, none, some localSettingsPath⟩) := by
  have hhv : hasVersionField v = false := by
    cases v <;> first | rfl | simp [isRecord] at hrec
  have hmig : migrateConfig v CURRENT_VERSION = v := by
    cases v <;> first | rfl | simp [isRecord] at hrec
  have hbase : mergeSource [] schemaDefaults = schemaDefaults := by
    rw [mergeSource_nil_eq_filterUndef _ (by decide)]
    rfl
  have hfr : ∀ (name : String) (c0 : Char) (rs : List Char), c0.isDigit = false →
      name.data = c0 :: rs →
      getKey (mergeSource schemaDefaults (entriesOf v)) name = getKey schemaDefaults name := by
    intro name c0 rs hc hs
    apply getKey_mergeSource_of_not_mem
    intro q hq
    obtain ⟨i, hi⟩ := entriesOf_keys_indexed hrec q hq
    rw [hi]
    exact indexKey_ne_of_head hc i name hs
  have hver : getKey (mergeSource schemaDefaults (entriesOf v)) "version" = some (.num 4) := by
    rw [hfr "version" 'v' _ (by decide) rfl]
    rfl
  have hlin : getKey (mergeSource schemaDefaults (entriesOf v)) "lines" = some (.arr []) := by
    rw [hfr "lines" 'l' _ (by decide) rfl]
    rfl
  have hcl : getKey (mergeSource schemaDefaults (entriesOf v)) "colorLevel" =
      some (.num 3) := by
    rw [hfr "colorLevel" 'c' _ (by decide) rfl]
    rfl
  have hfm : getKey (mergeSource schemaDefaults (entriesOf v)) "flexMode" =
      some (.str "full-minus-40") := by
    rw [hfr "flexMode" 'f' _ (by decide) rfl]
    rfl
  have hcm : getKey (mergeSource schemaDefaults (entriesOf v)) "customModules" =
      some (.arr []) := by
    rw [hfr "customModules" 'c' _ (by decide) rfl]
    rfl
  have hpl : getKey (mergeSource schemaDefaults (entriesOf v)) "powerline" =
      some (.obj [("enabled", .bool false), ("theme", .str "default")]) := by
    rw [hfr "powerline" 'p' _ (by decide) rfl]
    rfl
  have hparse : schemaParse (.obj (mergeSource schemaDefaults (entriesOf v))) =
      some (.obj schemaDefaults) := by
    simp [schemaParse, checkField, hver, hlin, hcl, hfm, hcm, hpl, isNumV, isArrV,
      isStrV, isBoolV, parsePowerline, getKey]
    rfl
  have hload : ∀ (fs : FS) (pth : String), readFS fs pth = some (.json v) →
      loadSingleScopeSettings fs pth = (v, writeFS fs pth (.json v)) := by
    intro fs pth h
    simp [loadSingleScopeSettings, loadSingleBody, h, hhv, hmig]
  refine ⟨?_, ?_⟩
  · rw [hload [(userSettingsPath, .json v)] userSettingsPath (by simp [readFS, getKey])]
  · intro scope
    cases scope with
    | user =>
      have hals : loadAllScopes [(userSettingsPath, .json v)] =
          ((v, .undef, .undef), [(userSettingsPath, .json v)]) := by
        simp [loadAllScopes, loadSingleScopeSettings, loadSingleBody, readFS, getKey,
          writeFS, setKey, userSettingsPath, projectSettingsPath, localSettingsPath,
          hhv, hmig]
      have hmerged : resolveMerged v .undef .undef =
          mergeSource schemaDefaults (entriesOf v) := by
        simp [resolveMerged, deepMerge, ht, truthy_obj, truthy_undef, entriesOf_obj, hbase]
      simp only [getSettingsPathForScope, resolveSettings, hals, hmerged, hparse]
      simp [ht, truthy_undef]
    | project =>
      have hals : loadAllScopes [(projectSettingsPath, .json v)] =
          ((.undef, v, .undef), [(projectSettingsPath, .json v)]) := by
        simp [loadAllScopes, loadSingleScopeSettings, loadSingleBody, readFS, getKey,
          writeFS, setKey, userSettingsPath, projectSettingsPath, localSettingsPath,
          hhv, hmig]
      have hmerged : resolveMerged .undef v .undef =
          mergeSource schemaDefaults (entriesOf v) := by
        simp [resolveMerged, deepMerge, ht, truthy_obj, truthy_undef, entriesOf_obj, hbase]
      simp only [getSettingsPathForScope, resolveSettings, hals, hmerged, hparse]
      simp [ht, truthy_undef]
    | «local» =>
      have hals : loadAllScopes [(localSettingsPath, .json v)] =
          ((.undef, .undef, v), [(localSettingsPath, .json v)]) := by
        simp [loadAllScopes, loadSingleScopeSettings, loadSingleBody, readFS, getKey,
          writeFS, setKey, userSettingsPath, projectSettingsPath, localSettingsPath,
          hhv, hmig]
      have hmerged : resolveMerged .undef .undef v =
          mergeSource schemaDefaults (entriesOf v) := by
        simp [resolveMerged, deepMerge, ht, truthy_obj, truthy_undef, entriesOf_obj, hbase]
      simp only [getSettingsPathForScope, resolveSettings, hals, hmerged, hparse]
      simp [ht, truthy_undef]

/-- Witness for C10: an array-valued user scope file is loaded, recorded as
a source, and contributes nothing to the resolved settings. -/
theorem truthy_nonobject_scope_is_source_witness :
    (resolveSettings [(userSettingsPath, .json (.arr [.num 1, .num 2]))]).1 =
      .ok (.obj schemaDefaults, ⟨some userSettingsPath, none, none⟩) :=
  (truthy_nonobject_scope_is_source (.arr [.num 1, .num 2]) rfl rfl).2 .user

/-! ## Canonical shape of schema-valid settings -/

theorem checkField_some {fs : Entries} {name : String} {pred : JValue → Bool}
    {dflt : JValue} {p : String × JValue}
    (h : checkField fs name pred dflt = some p) :
    ∃ v, p = (name, v) ∧ (pred v = true ∨ v = dflt) := by
  unfold checkField at h
  cases hg : getKey fs name with
  | none =>
    rw [hg] at h
    dsimp only at h
    injection h with h'
    exact ⟨dflt, h'.symm, Or.inr rfl⟩
  | some v =>
    rw [hg] at h
    dsimp only at h
    by_cases hp : pred v = true
    · rw [if_pos hp] at h
      injection h with h'
      exact ⟨v, h'.symm, Or.inl hp⟩
    · rw [if_neg hp] at h
      cases h

theorem isNumV_shape {v : JValue} (h : isNumV v = true) : ∃ n, v = .num n := by
  cases v <;> simp_all [isNumV]

theorem isArrV_shape {v : JValue} (h : isArrV v = true) : ∃ xs, v = .arr xs := by
  cases v <;> simp_all [isArrV]

theorem isStrV_shape {v : JValue} (h : isStrV v = true) : ∃ s, v = .str s := by
  cases v <;> simp_all [isStrV]

theorem isBoolV_shape {v : JValue} (h : isBoolV v = true) : ∃ b, v = .bool b := by
  cases v <;> simp_all [isBoolV]

theorem parsePowerline_shape {w p : JValue} (h : parsePowerline w = some p) :
    ∃ b th, p = .obj [("enabled", .bool b), ("theme", .str th)] := by
  cases w with
  | obj gs =>
    simp only [parsePowerline, Option.bind_eq_bind, Option.bind_eq_some] at h
    obtain ⟨e, he, h⟩ := h
    obtain ⟨t, ht, h⟩ := h
    obtain ⟨ev, hep, heq⟩ := checkField_some he
    obtain ⟨tv, htp, hteq⟩ := checkField_some ht
    injection h with h
    subst h hep htp
    have hb : ∃ b, ev = .bool b := by
      rcases heq with hq | hq
      · exact isBoolV_shape hq
      · exact ⟨false, hq⟩
    have hth : ∃ s, tv = .str s := by
      rcases hteq with hq | hq
      · exact isStrV_shape hq
      · exact ⟨"default", hq⟩
    obtain ⟨b, rfl⟩ := hb
    obtain ⟨s, rfl⟩ := hth
    exact ⟨b, s, rfl⟩
  | undef => cases h
  | null => cases h
  | bool b => cases h
  | num n => cases h
  | str s => cases h
  | arr xs => cases h

/-- Inversion: everything `schemaParse` accepts is an object of exactly the
six schema fields, in schema order, each of its declared shape. -/
theorem schemaParse_shape {fs : Entries} {w : JValue}
    (h : schemaParse (.obj fs) = some w) :
    ∃ (a : Int) (l : List JValue) (c : Int) (f : String) (m : List JValue)
      (b : Bool) (th : String),
      w = .obj [("version", .num a), ("lines", .arr l), ("colorLevel", .num c),
        ("flexMode", .str f), ("customModules", .arr m),
        ("powerline", .obj [("enabled", .bool b), ("theme", .str th)])] := by
  simp only [schemaParse, Option.bind_eq_bind, Option.bind_eq_some] at h
  obtain ⟨ver, hver, h⟩ := h
  obtain ⟨lin, hlin, h⟩ := h
  obtain ⟨cl, hcl, h⟩ := h
  obtain ⟨fm, hfm, h⟩ := h
  obtain ⟨cm, hcm, h⟩ := h
  obtain ⟨vv, hvp, hvq⟩ := checkField_some hver
  obtain ⟨lv, hlp, hlq⟩ := checkField_some hlin
  obtain ⟨cv, hcp, hcq⟩ := checkField_some hcl
  obtain ⟨fv, hfp, hfq⟩ := checkField_some hfm
  obtain ⟨mv, hmp, hmq⟩ := checkField_some hcm
  subst hvp hlp hcp hfp hmp
  obtain ⟨a, rfl⟩ : ∃ a, vv = .num a := by
    rcases hvq with hq | hq
    · exact isNumV_shape hq
    · exact ⟨CURRENT_VERSION, hq⟩
  obtain ⟨l, rfl⟩ : ∃ l, lv = .arr l := by
    rcases hlq with hq | hq
    · exact isArrV_shape hq
    · exact ⟨[], hq⟩
  obtain ⟨c, rfl⟩ : ∃ c, cv = .num c := by
    rcases hcq with hq | hq
    · exact isNumV_shape hq
    · exact ⟨3, hq⟩
  obtain ⟨f, rfl⟩ : ∃ f, fv = .str f := by
    rcases hfq with hq | hq
    · exact isStrV_shape hq
    · exact ⟨"full-minus-40", hq⟩
  obtain ⟨m, rfl⟩ : ∃ m, mv = .arr m := by
    rcases hmq with hq | hq
    · exact isArrV_shape hq
    · exact ⟨[], hq⟩
  cases hg : getKey fs "powerline" with
  | none =>
    rw [hg] at h
    dsimp only at h
    injection h with h
    exact ⟨a, l, c, f, m, false, "default", h.symm⟩
  | some w2 =>
    rw [hg] at h
    dsimp only at h
    rw [Option.bind_eq_some] at h
    obtain ⟨p2, hp2, h⟩ := h
    obtain ⟨b, th, rfl⟩ := parsePowerline_shape hp2
    injection h with h
    exact ⟨a, l, c, f, m, b, th, h.symm⟩

/-! ## Claim C4: save/resolve round trip -/

theorem loadSingle_absent {X : FS} {p : String} (h : readFS X p = none) :
    loadSingleScopeSettings X p = (.undef, X) := by
  simp [loadSingleScopeSettings, loadSingleBody, h]

/-- The gitignore guard only ever touches the `.gitignore` path. -/
theorem readFS_ensure_ne {X : FS} {p : String} (h : p ≠ gitignorePath) :
    readFS (ensureLocalSettingsGitignored X) p = readFS X p := by
  cases hg : readFS X gitignorePath with
  | none => simp [ensureLocalSettingsGitignored, hg]
  | some c =>
    cases c with
    | text content =>
      by_cases hin : includesSubstr content localPattern = true
      · simp [ensureLocalSettingsGitignored, hg, hin]
      · simp only [ensureLocalSettingsGitignored, hg, hin, Bool.false_eq_true, if_false]
        exact getKey_setKey_ne _ (Ne.symm h)
    | json v => simp [ensureLocalSettingsGitignored, hg]
    | malformed => simp [ensureLocalSettingsGitignored, hg]
    | denied => simp [ensureLocalSettingsGitignored, hg]

/-- C4: for a schema-valid (canonical) settings object `S`, saving `S` to a
scope whose two sibling scope files are absent and then freshly resolving
yields exactly `S` with `version` normalized to `CURRENT_VERSION`: the
resolved object is `S` with its `version` entry overwritten, so it agrees
with `S` on every key other than `version`, and that scope is the only
recorded source. -/
theorem save_resolve_roundtrip (S : Entries) (scope : SettingsScope) (fs0 : FS)
    (hvalid : schemaParse (.obj S) = some (.obj S))
    (habs : ∀ sc : SettingsScope,
      getSettingsPathForScope sc ≠ getSettingsPathForScope scope →
      readFS fs0 (getSettingsPathForScope sc) = none) :
    ((resolveSettings (saveScopedSettings S scope fs0)).1 =
      .ok (.obj (setKey S "version" (.num CURRENT_VERSION)),
        match scope with
        | .user => ⟨some userSettingsPath, none, none⟩
        | .project => ⟨none, some projectSettingsPath, none⟩
        | .«local» => ⟨none, none, some localSettingsPath⟩))
    ∧ getKey (setKey S "version" (.num CURRENT_VERSION)) "version" =
        some (.num CURRENT_VERSION)
    ∧ (∀ k, k ≠ "version" →
        getKey (setKey S "version" (.num CURRENT_VERSION)) k = getKey S k) := by
  refine ⟨?_, getKey_setKey_self _ _ _, fun k hk => getKey_setKey_ne _ (Ne.symm hk)⟩
  obtain ⟨a, l, c, f, m, b, th, hS⟩ := schemaParse_shape hvalid
  injection hS with hS
  subst hS
  have hd : schemaDefaults = [("version", .num 4), ("lines", .arr []),
      ("colorLevel", .num 3), ("flexMode", .str "full-minus-40"),
      ("customModules", .arr []),
      ("powerline", .obj [("enabled", .bool false), ("theme", .str "default")])] := rfl
  have hbase : mergeSource [] schemaDefaults = schemaDefaults := by
    rw [mergeSource_nil_eq_filterUndef _ (by decide)]
    rfl
  have hms : mergeSource schemaDefaults
      [("version", .num 4), ("lines", .arr l), ("colorLevel", .num c),
        ("flexMode", .str f), ("customModules", .arr m),
        ("powerline", .obj [("enabled", .bool b), ("theme", .str th)])] =
      [("version", .num 4), ("lines", .arr l), ("colorLevel", .num c),
        ("flexMode", .str f), ("customModules", .arr m),
        ("powerline", .obj [("enabled", .bool b), ("theme", .str th)])] := by
    rw [hd]
    simp [mergeSource, setKey, getKey, filterUndef, isUndef]
  have hparse2 : schemaParse (.obj [("version", .num 4), ("lines", .arr l),
      ("colorLevel", .num c), ("flexMode", .str f), ("customModules", .arr m),
      ("powerline", .obj [("enabled", .bool b), ("theme", .str th)])]) =
      some (.obj [("version", .num 4), ("lines", .arr l), ("colorLevel", .num c),
        ("flexMode", .str f), ("customModules", .arr m),
        ("powerline", .obj [("enabled", .bool b), ("theme", .str th)])]) := by
    simp [schemaParse, checkField, getKey, isNumV, isArrV, isStrV, isBoolV, parsePowerline]
  have hloadS : ∀ (X : FS) (p : String),
      readFS X p = some (.json (.obj [("version", .num 4), ("lines", .arr l),
        ("colorLevel", .num c), ("flexMode", .str f), ("customModules", .arr m),
        ("powerline", .obj [("enabled", .bool b), ("theme", .str th)])])) →
      loadSingleScopeSettings X p = (.obj [("version", .num 4), ("lines", .arr l),
        ("colorLevel", .num c), ("flexMode", .str f), ("customModules", .arr m),
        ("powerline", .obj [("enabled", .bool b), ("theme", .str th)])], X) := by
    intro X p h
    simp [loadSingleScopeSettings, loadSingleBody, h, hasVersionField, getKey,
      needsMigration, detectVersion, CURRENT_VERSION]
  cases scope with
  | user =>
    have hru : readFS (saveScopedSettings [("version", .num a), ("lines", .arr l),
        ("colorLevel", .num c), ("flexMode", .str f), ("customModules", .arr m),
        ("powerline", .obj [("enabled", .bool b), ("theme", .str th)])] .user fs0) userSettingsPath =
        some (.json (.obj (setKey [("version", .num a), ("lines", .arr l),
          ("colorLevel", .num c), ("flexMode", .str f), ("customModules", .arr m),
          ("powerline", .obj [("enabled", .bool b), ("theme", .str th)])]
          "version" (.num CURRENT_VERSION)))) := getKey_setKey_self _ _ _
    have hrp : readFS (saveScopedSettings [("version", .num a), ("lines", .arr l),
        ("colorLevel", .num c), ("flexMode", .str f), ("customModules", .arr m),
        ("powerline", .obj [("enabled", .bool b), ("theme", .str th)])] .user fs0) projectSettingsPath = none := by
      have := habs .project (by decide)
      simpa [saveScopedSettings, getSettingsPathForScope, readFS, writeFS,
        getKey_setKey_ne _ (by decide : userSettingsPath ≠ projectSettingsPath)] using this
    have hrl : readFS (saveScopedSettings [("version", .num a), ("lines", .arr l),
        ("colorLevel", .num c), ("flexMode", .str f), ("customModules", .arr m),
        ("powerline", .obj [("enabled", .bool b), ("theme", .str th)])] .user fs0) localSettingsPath = none := by
      have := habs .«local» (by decide)
      simpa [saveScopedSettings, getSettingsPathForScope, readFS, writeFS,
        getKey_setKey_ne _ (by decide : userSettingsPath ≠ localSettingsPath)] using this
    have hals : loadAllScopes (saveScopedSettings [("version", .num a), ("lines", .arr l),
        ("colorLevel", .num c), ("flexMode", .str f), ("customModules", .arr m),
        ("powerline", .obj [("enabled", .bool b), ("theme", .str th)])] .user fs0) =
        ((.obj [("version", .num 4), ("lines", .arr l), ("colorLevel", .num c),
          ("flexMode", .str f), ("customModules", .arr m),
          ("powerline", .obj [("enabled", .bool b), ("theme", .str th)])], .undef, .undef),
          saveScopedSettings [("version", .num a), ("lines", .arr l),
        ("colorLevel", .num c), ("flexMode", .str f), ("customModules", .arr m),
        ("powerline", .obj [("enabled", .bool b), ("theme", .str th)])] .user fs0) := by
      simp only [loadAllScopes]
      rw [hloadS _ _ hru, loadSingle_absent hrp, loadSingle_absent hrl]
    have hfin : schemaParse (.obj (resolveMerged
        (.obj [("version", .num 4), ("lines", .arr l), ("colorLevel", .num c),
          ("flexMode", .str f), ("customModules", .arr m),
          ("powerline", .obj [("enabled", .bool b), ("theme", .str th)])])
        .undef .undef)) =
        some (.obj [("version", .num 4), ("lines", .arr l), ("colorLevel", .num c),
          ("flexMode", .str f), ("customModules", .arr m),
          ("powerline", .obj [("enabled", .bool b), ("theme", .str th)])]) := by
      have hmg : resolveMerged
          (.obj [("version", .num 4), ("lines", .arr l), ("colorLevel", .num c),
            ("flexMode", .str f), ("customModules", .arr m),
            ("powerline", .obj [("enabled", .bool b), ("theme", .str th)])])
          .undef .undef =
          mergeSource schemaDefaults
            [("version", .num 4), ("lines", .arr l), ("colorLevel", .num c),
              ("flexMode", .str f), ("customModules", .arr m),
              ("powerline", .obj [("enabled", .bool b), ("theme", .str th)])] := by
        simp [resolveMerged, deepMerge, truthy_obj, truthy_undef, entriesOf_obj, hbase]
      rw [hmg, hms, hparse2]
    simp only [resolveSettings, hals, hfin]
    simp [truthy_obj, truthy_undef, setKey, CURRENT_VERSION]
  | project =>
    have hru : readFS (saveScopedSettings [("version", .num a), ("lines", .arr l),
        ("colorLevel", .num c), ("flexMode", .str f), ("customModules", .arr m),
        ("powerline", .obj [("enabled", .bool b), ("theme", .str th)])] .project fs0) userSettingsPath = none := by
      have := habs .user (by decide)
      simpa [saveScopedSettings, getSettingsPathForScope, readFS, writeFS,
        getKey_setKey_ne _ (by decide : projectSettingsPath ≠ userSettingsPath)] using this
    have hrp : readFS (saveScopedSettings [("version", .num a), ("lines", .arr l),
        ("colorLevel", .num c), ("flexMode", .str f), ("customModules", .arr m),
        ("powerline", .obj [("enabled", .bool b), ("theme", .str th)])] .project fs0) projectSettingsPath =
        some (.json (.obj (setKey [("version", .num a), ("lines", .arr l),
          ("colorLevel", .num c), ("flexMode", .str f), ("customModules", .arr m),
          ("powerline", .obj [("enabled", .bool b), ("theme", .str th)])]
          "version" (.num CURRENT_VERSION)))) := getKey_setKey_self _ _ _
    have hrl : readFS (saveScopedSettings [("version", .num a), ("lines", .arr l),
        ("colorLevel", .num c), ("flexMode", .str f), ("customModules", .arr m),
        ("powerline", .obj [("enabled", .bool b), ("theme", .str th)])] .project fs0) localSettingsPath = none := by
      have := habs .«local» (by decide)
      simpa [saveScopedSettings, getSettingsPathForScope, readFS, writeFS,
        getKey_setKey_ne _ (by decide : projectSettingsPath ≠ localSettingsPath)] using this
    have hals : loadAllScopes (saveScopedSettings [("version", .num a), ("lines", .arr l),
        ("colorLevel", .num c), ("flexMode", .str f), ("customModules", .arr m),
        ("powerline", .obj [("enabled", .bool b), ("theme", .str th)])] .project fs0) =
        ((.undef, .obj [("version", .num 4), ("lines", .arr l), ("colorLevel", .num c),
          ("flexMode", .str f), ("customModules", .arr m),
          ("powerline", .obj [("enabled", .bool b), ("theme", .str th)])], .undef),
          saveScopedSettings [("version", .num a), ("lines", .arr l),
        ("colorLevel", .num c), ("flexMode", .str f), ("customModules", .arr m),
        ("powerline", .obj [("enabled", .bool b), ("theme", .str th)])] .project fs0) := by
      simp only [loadAllScopes]
      rw [loadSingle_absent hru, hloadS _ _ hrp, loadSingle_absent hrl]
    have hfin : schemaParse (.obj (resolveMerged .undef
        (.obj [("version", .num 4), ("lines", .arr l), ("colorLevel", .num c),
          ("flexMode", .str f), ("customModules", .arr m),
          ("powerline", .obj [("enabled", .bool b), ("theme", .str th)])])
        .undef)) =
        some (.obj [("version", .num 4), ("lines", .arr l), ("colorLevel", .num c),
          ("flexMode", .str f), ("customModules", .arr m),
          ("powerline", .obj [("enabled", .bool b), ("theme", .str th)])]) := by
      have hmg : resolveMerged .undef
          (.obj [("version", .num 4), ("lines", .arr l), ("colorLevel", .num c),
            ("flexMode", .str f), ("customModules", .arr m),
            ("powerline", .obj [("enabled", .bool b), ("theme", .str th)])])
          .undef =
          mergeSource schemaDefaults
            [("version", .num 4), ("lines", .arr l), ("colorLevel", .num c),
              ("flexMode", .str f), ("customModules", .arr m),
              ("powerline", .obj [("enabled", .bool b), ("theme", .str th)])] := by
        simp [resolveMerged, deepMerge, truthy_obj, truthy_undef, entriesOf_obj, hbase]
      rw [hmg, hms, hparse2]
    simp only [resolveSettings, hals, hfin]
    simp [truthy_obj, truthy_undef, setKey, CURRENT_VERSION]
  | «local» =>
    have hgitne1 : userSettingsPath ≠ gitignorePath := by decide
    have hgitne2 : projectSettingsPath ≠ gitignorePath := by decide
    have hgitne3 : localSettingsPath ≠ gitignorePath := by decide
    have hru : readFS (saveScopedSettings [("version", .num a), ("lines", .arr l),
        ("colorLevel", .num c), ("flexMode", .str f), ("customModules", .arr m),
        ("powerline", .obj [("enabled", .bool b), ("theme", .str th)])] .«local» fs0) userSettingsPath = none := by
      have h0 := habs .user (by decide)
      simp only [saveScopedSettings, getSettingsPathForScope]
      rw [readFS_ensure_ne hgitne1]
      simpa [readFS, writeFS,
        getKey_setKey_ne _ (by decide : localSettingsPath ≠ userSettingsPath)] using h0
    have hrp : readFS (saveScopedSettings [("version", .num a), ("lines", .arr l),
        ("colorLevel", .num c), ("flexMode", .str f), ("customModules", .arr m),
        ("powerline", .obj [("enabled", .bool b), ("theme", .str th)])] .«local» fs0) projectSettingsPath = none := by
      have h0 := habs .project (by decide)
      simp only [saveScopedSettings, getSettingsPathForScope]
      rw [readFS_ensure_ne hgitne2]
      simpa [readFS, writeFS,
        getKey_setKey_ne _ (by decide : localSettingsPath ≠ projectSettingsPath)] using h0
    have hrl : readFS (saveScopedSettings [("version", .num a), ("lines", .arr l),
        ("colorLevel", .num c), ("flexMode", .str f), ("customModules", .arr m),
        ("powerline", .obj [("enabled", .bool b), ("theme", .str th)])] .«local» fs0) localSettingsPath =
        some (.json (.obj (setKey [("version", .num a), ("lines", .arr l),
          ("colorLevel", .num c), ("flexMode", .str f), ("customModules", .arr m),
          ("powerline", .obj [("enabled", .bool b), ("theme", .str th)])]
          "version" (.num CURRENT_VERSION)))) := by
      simp only [saveScopedSettings, getSettingsPathForScope]
      rw [readFS_ensure_ne hgitne3]
      exact getKey_setKey_self _ _ _
    have hals : loadAllScopes (saveScopedSettings [("version", .num a), ("lines", .arr l),
        ("colorLevel", .num c), ("flexMode", .str f), ("customModules", .arr m),
        ("powerline", .obj [("enabled", .bool b), ("theme", .str th)])] .«local» fs0) =
        ((.undef, .undef, .obj [("version", .num 4), ("lines", .arr l),
          ("colorLevel", .num c), ("flexMode", .str f), ("customModules", .arr m),
          ("powerline", .obj [("enabled", .bool b), ("theme", .str th)])]),
          saveScopedSettings [("version", .num a), ("lines", .arr l),
        ("colorLevel", .num c), ("flexMode", .str f), ("customModules", .arr m),
        ("powerline", .obj [("enabled", .bool b), ("theme", .str th)])] .«local» fs0) := by
      simp only [loadAllScopes]
      rw [loadSingle_absent hru, loadSingle_absent hrp, hloadS _ _ hrl]
    have hfin : schemaParse (.obj (resolveMerged .undef .undef
        (.obj [("version", .num 4), ("lines", .arr l), ("colorLevel", .num c),
          ("flexMode", .str f), ("customModules", .arr m),
          ("powerline", .obj [("enabled", .bool b), ("theme", .str th)])]))) =
        some (.obj [("version", .num 4), ("lines", .arr l), ("colorLevel", .num c),
          ("flexMode", .str f), ("customModules", .arr m),
          ("powerline", .obj [("enabled", .bool b), ("theme", .str th)])]) := by
      have hmg : resolveMerged .undef .undef
          (.obj [("version", .num 4), ("lines", .arr l), ("colorLevel", .num c),
            ("flexMode", .str f), ("customModules", .arr m),
            ("powerline", .obj [("enabled", .bool b), ("theme", .str th)])]) =
          mergeSource schemaDefaults
            [("version", .num 4), ("lines", .arr l), ("colorLevel", .num c),
              ("flexMode", .str f), ("customModules", .arr m),
              ("powerline", .obj [("enabled", .bool b), ("theme", .str th)])] := by
        simp [resolveMerged, deepMerge, truthy_obj, truthy_undef, entriesOf_obj, hbase]
      rw [hmg, hms, hparse2]
    simp only [resolveSettings, hals, hfin]
    simp [truthy_obj, truthy_undef, setKey, CURRENT_VERSION]

/-- Witness for C4: the canonical defaults object, saved to the project
scope of an empty file system, resolves back to itself with `version`
re-stamped. -/
theorem save_resolve_roundtrip_witness :
    (resolveSettings (saveScopedSettings schemaDefaults .project [])).1 =
      .ok (.obj (setKey schemaDefaults "version" (.num CURRENT_VERSION)),
        ⟨none, some projectSettingsPath, none⟩) :=
  (save_resolve_roundtrip schemaDefaults .project [] rfl
    (fun sc _ => rfl)).1

end CCStat
